import Mathlib

/-!
# Verification of the OpenSlots SAS protocol core

Shallow embedding of `src/openslots/protocols/sas.py`: the 16-bit nibble
checksum `crc`, the packed-decimal codec `int_to_bcd` / `bcd_to_int`, the
monotone accounting meter `SASMeter`, and the secure-enhanced validation
number generator `SASGame.SE_validation_number`.

Python machine-level conventions are modelled explicitly:
* byte strings are `List Nat` (each entry a value in `[0, 256)`);
* `int` is `Int`; counters that are provably non-negative are `Nat`;
* fallible operations (`int.to_bytes`, `int(s, 16)` on an empty string)
  return `Option`, with `none` for a raised exception.
-/

/-- Little-endian decimal digits of `n`, with explicit fuel so that the
definition is structurally recursive (fuel `n` is always enough).
`decDigitsLE n n` agrees with `Nat.digits 10 n`. -/
def decDigitsLE : Nat → Nat → List Nat
  | _, 0 => []
  | 0, _ + 1 => []
  | fuel + 1, n + 1 => ((n + 1) % 10) :: decDigitsLE fuel ((n + 1) / 10)

/-- Digits of the Python decimal string `str(n)`, most significant first:
`str(0) = "0"` has a single digit `0`. -/
def decStrDigits (n : Nat) : List Nat :=
  if n = 0 then [0] else (decDigitsLE n n).reverse

/-- The Python string `str(n)` for a natural number, as a list of
characters. -/
def strNat (n : Nat) : List Char :=
  (decStrDigits n).map fun d => Char.ofNat (48 + d)

/-- The digit values of `'%08i' % n`: the decimal digits of `n`,
left-padded with zeros to a minimum width of 8. -/
def fmt8 (n : Nat) : List Nat :=
  List.replicate (8 - (decStrDigits n).length) 0 ++ decStrDigits n

/-- Little-endian base-16 digits with fuel, analogous to `decDigitsLE`. -/
def hexDigitsLE : Nat → Nat → List Nat
  | _, 0 => []
  | 0, _ + 1 => []
  | fuel + 1, n + 1 => ((n + 1) % 16) :: hexDigitsLE fuel ((n + 1) / 16)

/-- Digit values of the Python string `format(n, 'x')`: minimal-width
lowercase hexadecimal, so `format(0, 'x') = "0"` and no zero padding. -/
def hexStrDigits (n : Nat) : List Nat :=
  if n = 0 then [0] else (hexDigitsLE n n).reverse

/-- Python `n.to_bytes(len, byteorder='little')` without the range check:
exactly `len` bytes, least significant first. -/
def toBytesLEAux : Nat → Nat → List Nat
  | 0, _ => []
  | w + 1, m => m % 256 :: toBytesLEAux w (m / 256)

/-- Python `n.to_bytes(len, byteorder='little')` for a natural number:
raises `OverflowError` (here `none`) when `n` does not fit. -/
def natToBytesLE (len n : Nat) : Option (List Nat) :=
  if n < 256 ^ len then some (toBytesLEAux len n) else none

/-- Python `n.to_bytes(len, byteorder='little')` for a Python `int`: raises
(`none`) when `n` is negative or does not fit in `len` bytes. -/
def to_bytes_le (len : Nat) (n : Int) : Option (List Nat) :=
  if 0 ≤ n ∧ n < (256 : Int) ^ len then some (toBytesLEAux len n.toNat) else none

/-- Python `m.to_bytes(w, 'big')` without the range check: exactly `w` bytes,
most significant first. -/
def toBytesBE : Nat → Nat → List Nat
  | 0, _ => []
  | w + 1, m => toBytesBE w (m / 256) ++ [m % 256]

/-- Reads a big-endian byte string back as a natural number. -/
def fromBytesBE (bs : List Nat) : Nat :=
  bs.foldl (fun a b => 256 * a + b) 0

/-! ## The checksum `crc` (sas.py lines 25-32) -/

/-- One nibble step of the accumulator (sas.py lines 28-29 and 30-31):
`q = (seed ^ x) & 0o17; seed = (seed >> 4) ^ (q * 0o10201)`.
`0o17 = 15` and `0o10201 = 4225 = 0x1081`. -/
def crcNibble (seed x : Nat) : Nat :=
  (seed >>> 4) ^^^ (((seed ^^^ x) &&& 15) * 4225)

/-- One loop iteration of `crc`: the low-nibble step with `x` itself,
then the high-nibble step with `x >> 4`. -/
def crcByte (seed x : Nat) : Nat :=
  crcNibble (crcNibble seed x) (x >>> 4)

/-- The final accumulator value of the `crc` loop. -/
def crcAccum (b : List Nat) (seed : Nat) : Nat :=
  b.foldl crcByte seed

/-- Source `crc(b, seed)` (sas.py lines 25-32): runs the accumulator and returns
`seed.to_bytes(2, byteorder='little')`. -/
def crc (b : List Nat) (seed : Nat) : Option (List Nat) :=
  natToBytesLE 2 (crcAccum b seed)

/-! ## The packed-decimal codec (sas.py lines 35-53) -/

/-- Python `int(str(i), 16)` for a non-negative `i`: the decimal digit string of
`i` parsed as a base-16 literal. -/
def hexread (i : Nat) : Nat :=
  (decStrDigits i).foldl (fun a d => 16 * a + d) 0

/-- Source `int_to_bcd(i, length)` (sas.py lines 35-42): `ValueError` for a
negative `i` or `length`, otherwise `int(str(i), 16).to_bytes(length, 'big')`
with `OverflowError` (`none`) when the value does not fit. -/
def int_to_bcd (i len : Int) : Option (List Nat) :=
  if i < 0 then none
  else if len < 0 then none
  else if hexread i.toNat < 256 ^ len.toNat then
    some (toBytesBE len.toNat (hexread i.toNat))
  else none

/-- Source `bcd_to_int(x)` (sas.py lines 45-53): concatenate `format(i, 'x')`
over the bytes and parse the result in base 16; an empty byte string
yields the empty string, and `int('', 16)` raises (`none`). -/
def bcd_to_int (x : List Nat) : Option Nat :=
  if x = [] then none
  else some ((x.foldl (fun s i => s ++ hexStrDigits i) []).foldl
    (fun a d => 16 * a + d) 0)

/-- Modelled from the spec: the §4.1 description of `decode`, which
formats each input byte as an exactly-two-character lowercase hexadecimal
string before concatenating and parsing in base 16. -/
def bcd_to_int_twoChar (x : List Nat) : Option Nat :=
  if x = [] then none
  else some ((x.foldl (fun s i => s ++ [i / 16 % 16, i % 16]) []).foldl
    (fun a d => 16 * a + d) 0)

/-! ## Modelled from the spec: the §4.2 checksum description

The spec's reference accumulator, written from the words of §4.2; it is
compared with the source's `crc` in claim C3. -/

/-- Modelled from the spec (§4.2): one nibble step,
`q = (seed XOR slice) & 0xF; seed = (seed >> 4) XOR (q * 0x1081)`. -/
def checksumStepSpec (seed slice : Nat) : Nat :=
  (seed >>> 4) ^^^ (((seed ^^^ slice) &&& 0xF) * 0x1081)

/-- Modelled from the spec (§4.2): fold the nibble step over every byte,
low nibble (the byte itself) first, then high nibble (`x >> 4`),
carrying the seed forward. -/
def checksumAccumSpec (bs : List Nat) (seed : Nat) : Nat :=
  bs.foldl (fun s x => checksumStepSpec (checksumStepSpec s x) (x >>> 4)) seed

/-- Modelled from the spec (§4.2): the final 16-bit seed rendered as two
bytes, least significant byte first. -/
def checksumSpec (bs : List Nat) (seed : Nat) : List Nat :=
  [checksumAccumSpec bs seed % 256, checksumAccumSpec bs seed / 256 % 256]

/-! ## The meter (sas.py lines 59-114) -/

/-- Source `SASMeter`: identifier, serialization width in bytes, current value,
name and description.  The Python `__len__` closure over `size` is the
`size` field. -/
structure SASMeter where
  id : Int
  size : Nat
  value : Int
  name : String
  description : String
deriving DecidableEq, Repr

/-- The `value` property setter (sas.py lines 86-88):
`self._value = n if n > self._value else self._value`. -/
def SASMeter.setValue (m : SASMeter) (n : Int) : SASMeter :=
  { m with value := if m.value < n then n else m.value }

/-- The `value` deleter / `clear()` (sas.py lines 90-95): reset to 0. -/
def SASMeter.clear (m : SASMeter) : SASMeter :=
  { m with value := 0 }

/-- The `name` setter (sas.py lines 78-80): truncate to 50 characters. -/
def SASMeter.setName (m : SASMeter) (s : String) : SASMeter :=
  { m with name := ⟨s.toList.take 50⟩ }

/-- Source `__iadd__` (sas.py lines 106-108): `self.value += n if n > 0 else 0`,
which goes through the monotone `value` setter. -/
def SASMeter.iadd (m : SASMeter) (n : Int) : SASMeter :=
  m.setValue (m.value + if 0 < n then n else 0)

/-- Source `__bytes__` (sas.py lines 103-104): `int_to_bcd(self.value, len(self))`. -/
def SASMeter.bytes (m : SASMeter) : Option (List Nat) :=
  int_to_bcd m.value (m.size : Int)

/-- One meter mutation, for stating the monotonicity invariant over an
arbitrary operation sequence. -/
inductive MeterOp where
  | inc (n : Int)
  | assign (n : Int)
  | clear
deriving DecidableEq, Repr

/-- Performs one meter mutation. -/
def applyOp (m : SASMeter) : MeterOp → SASMeter
  | .inc n => m.iadd n
  | .assign n => m.setValue n
  | .clear => m.clear

/-- Performs a sequence of meter mutations, left to right. -/
def applyOps (m : SASMeter) (ops : List MeterOp) : SASMeter :=
  ops.foldl applyOp m

/-! ## The game registry (sas.py lines 117-173) -/

/-- Source `SASGame` state: the two validation counters (both Python ints,
initialized to 0 and assigned by a host) and the meter registry. -/
structure SASGame where
  v_id : Int
  v_seq : Int
  meters : List (String × SASMeter)
deriving DecidableEq, Repr

/-- The scramble (sas.py lines 147-153): `b[0]=a[0]`, `b[1]=a[1]`,
`b[2]=a[2]^a[0]`, `b[3]=a[3]^a[1]`, `b[4]=a[4]^a[0]`, `b[5]=a[5]^a[1]`. -/
def scramble (a : List Nat) : List Nat :=
  [a[0]!, a[1]!, a[2]! ^^^ a[0]!, a[3]! ^^^ a[1]!, a[4]! ^^^ a[0]!, a[5]! ^^^ a[1]!]

/-- The little-endian recombination loops (sas.py lines 159-165):
`n += v << (i * 8)` over `enumerate` of a byte list. -/
def leCombine : List Nat → Nat
  | [] => 0
  | x :: xs => x + 256 * leCombine xs

/-- The check-digit injection (sas.py lines 169-170), applied to the
already-reversed digit list `v`:
`v[7] |= (sum(v[:8]) % 5) << 1; v[15] |= (sum(v[8:]) % 5) << 1`. -/
def SE_inject (v : List Nat) : List Nat :=
  let v1 := v.set 7 (v[7]! ||| ((v.take 8).sum % 5) <<< 1)
  v1.set 15 (v1[15]! ||| ((v1.drop 8).sum % 5) <<< 1)

/-- The string join (sas.py line 173): `''.join([str(x) for x in v])`. -/
def digitsChars (v : List Nat) : List Char :=
  v.foldr (fun x acc => strNat x ++ acc) []

/-- Source `SASGame.SE_validation_number` (sas.py lines 132-173).  The two
3-byte little-endian encodings raise `OverflowError` (`none`) when a
counter is out of range, and each `crc` call would raise if its
accumulator exceeded 16 bits; every other step is pure arithmetic on the
state, which the method never mutates. -/
def SASGame.SE_validation_number (g : SASGame) : Option String := do
  let aseq ← to_bytes_le 3 g.v_seq
  let aid ← to_bytes_le 3 g.v_id
  let a := aseq ++ aid
  let b := scramble a
  let c1 ← crc (b.take 2) 0
  let c2 ← crc ((b.drop 2).take 2) 0
  let c3 ← crc (b.drop 4) 0
  let c := c1 ++ c2 ++ c3
  let n0 := leCombine (c.drop 3)
  let n1 := leCombine (c.take 3)
  let v := fmt8 n0 ++ fmt8 n1
  let w := SE_inject v.reverse
  some ("00" ++ String.mk (digitsChars w.reverse))

/-! ## Total restatements of the generator's stages

Under the 24-bit range condition every fallible step of
`SE_validation_number` succeeds; these total functions name the
intermediate values so that the claims can refer to them. -/

/-- The 6 checksum bytes `c` computed from in-range counters. -/
def SE_c (seq id : Nat) : List Nat :=
  let b := scramble (toBytesLEAux 3 seq ++ toBytesLEAux 3 id)
  toBytesLEAux 2 (crcAccum (b.take 2) 0) ++
    toBytesLEAux 2 (crcAccum ((b.drop 2).take 2) 0) ++
    toBytesLEAux 2 (crcAccum (b.drop 4) 0)

/-- The integer `n[0]`, recombined from `c[3:]`. -/
def SE_n0 (seq id : Nat) : Nat := leCombine ((SE_c seq id).drop 3)

/-- The integer `n[1]`, recombined from `c[:3]`. -/
def SE_n1 (seq id : Nat) : Nat := leCombine ((SE_c seq id).take 3)

/-- The reversed 16-digit list just before the check-digit injection. -/
def SE_pre (seq id : Nat) : List Nat :=
  (fmt8 (SE_n0 seq id) ++ fmt8 (SE_n1 seq id)).reverse

/-- The final 16-element digit list, in output order. -/
def SE_digits (seq id : Nat) : List Nat :=
  (SE_inject (SE_pre seq id)).reverse

/-- The output string for in-range counters. -/
def SE_total (seq id : Nat) : String :=
  "00" ++ String.mk (digitsChars (SE_digits seq id))

/-! ## Helper lemmas: the checksum accumulator stays below `2^16` -/

theorem crcNibble_lt (seed x : Nat) (h : seed < 65536) : crcNibble seed x < 65536 := by
  have hq : (seed ^^^ x) &&& 15 ≤ 15 := Nat.and_le_right
  have h1 : seed >>> 4 < 65536 := by
    rw [Nat.shiftRight_eq_div_pow]
    omega
  have h2 : ((seed ^^^ x) &&& 15) * 4225 < 65536 := by
    have := Nat.mul_le_mul_right 4225 hq
    omega
  have : seed >>> 4 ^^^ ((seed ^^^ x) &&& 15) * 4225 < 2 ^ 16 :=
    Nat.bitwise_lt (by omega) (by omega)
  have h16 : (2 : Nat) ^ 16 = 65536 := by norm_num
  rw [crcNibble]
  omega

theorem crcByte_lt (seed x : Nat) (h : seed < 65536) : crcByte seed x < 65536 :=
  crcNibble_lt _ _ (crcNibble_lt _ _ h)

theorem crcAccum_lt (b : List Nat) (seed : Nat) (h : seed < 65536) :
    crcAccum b seed < 65536 := by
  induction b generalizing seed with
  | nil => exact h
  | cons x xs ih => exact ih _ (crcByte_lt _ _ h)

theorem crc_eq_of_seed_lt (b : List Nat) (seed : Nat) (h : seed < 65536) :
    crc b seed = some (toBytesLEAux 2 (crcAccum b seed)) := by
  rw [crc, natToBytesLE, if_pos]
  have := crcAccum_lt b seed h
  norm_num
  omega

/-! ## Helper lemmas: fuel-based digits agree with `Nat.digits` -/

theorem decDigitsLE_eq_digits : ∀ (fuel n : Nat), n ≤ fuel →
    decDigitsLE fuel n = Nat.digits 10 n := by
  intro fuel
  induction fuel with
  | zero =>
    intro n hn
    interval_cases n
    simp [decDigitsLE]
  | succ f ih =>
    intro n hn
    match n with
    | 0 => simp [decDigitsLE]
    | k + 1 =>
      rw [decDigitsLE, Nat.digits_def' (by norm_num : (1:Nat) < 10) (Nat.succ_pos k),
        ih ((k + 1) / 10) (by omega)]

theorem decStrDigits_eq (n : Nat) (hn : n ≠ 0) :
    decStrDigits n = (Nat.digits 10 n).reverse := by
  rw [decStrDigits, if_neg hn, decDigitsLE_eq_digits n n le_rfl]

/-! ## Helper lemmas: the zero-padded 8-digit window -/

/-- The little-endian `k`-digit decimal window of `n`:
`[n % 10, n / 10 % 10, …]`. -/
def winDigits : Nat → Nat → List Nat
  | 0, _ => []
  | k + 1, n => n % 10 :: winDigits k (n / 10)

theorem winDigits_zero : ∀ (k : Nat), winDigits k 0 = List.replicate k 0 := by
  intro k
  induction k with
  | zero => rfl
  | succ k ih => rw [winDigits, Nat.zero_mod, Nat.zero_div, ih, List.replicate_succ]

theorem winDigits_length : ∀ (k n : Nat), (winDigits k n).length = k := by
  intro k
  induction k with
  | zero => intro n; rfl
  | succ k ih => intro n; rw [winDigits, List.length_cons, ih]

theorem winDigits_mem_lt (k n : Nat) : ∀ x ∈ winDigits k n, x < 10 := by
  induction k generalizing n with
  | zero => intro x hx; cases hx
  | succ k ih =>
    intro x hx
    rw [winDigits] at hx
    rcases List.mem_cons.mp hx with rfl | hx
    · exact Nat.mod_lt _ (by norm_num)
    · exact ih _ x hx

theorem digits_pad_eq_winDigits : ∀ (k n : Nat), n < 10 ^ k →
    Nat.digits 10 n ++ List.replicate (k - (Nat.digits 10 n).length) 0 =
      winDigits k n := by
  intro k
  induction k with
  | zero =>
    intro n hn
    interval_cases n
    simp [winDigits]
  | succ k ih =>
    intro n hn
    match n with
    | 0 => simpa using (winDigits_zero (k + 1)).symm
    | m + 1 =>
      rw [Nat.digits_def' (by norm_num : (1:Nat) < 10) (Nat.succ_pos m)]
      rw [winDigits, List.length_cons, List.cons_append]
      have hdiv : (m + 1) / 10 < 10 ^ k := by
        rw [Nat.div_lt_iff_lt_mul (by norm_num)]
        calc m + 1 < 10 ^ (k + 1) := hn
        _ = 10 ^ k * 10 := by ring
      rw [show k + 1 - ((Nat.digits 10 ((m + 1) / 10)).length + 1)
          = k - (Nat.digits 10 ((m + 1) / 10)).length by omega]
      rw [ih _ hdiv]

theorem fmt8_reverse (n : Nat) (hn : n < 10 ^ 8) :
    (fmt8 n).reverse = winDigits 8 n := by
  by_cases h0 : n = 0
  · subst h0
    rfl
  · rw [fmt8, decStrDigits_eq n h0, List.reverse_append, List.reverse_reverse,
      List.reverse_replicate, List.length_reverse]
    exact digits_pad_eq_winDigits 8 n hn

/-! ## Helper lemmas: rendering digits as characters -/

theorem strNat_of_le_nine {x : Nat} (h : x ≤ 9) : strNat x = [Char.ofNat (48 + x)] := by
  interval_cases x <;> rfl

theorem strNat_length_of_le_nine {x : Nat} (h : x ≤ 9) : (strNat x).length = 1 := by
  rw [strNat_of_le_nine h]
  rfl

theorem strNat_length_ge_two {x : Nat} (h : 10 ≤ x) : 2 ≤ (strNat x).length := by
  have hx0 : x ≠ 0 := by omega
  rw [strNat, List.length_map, decStrDigits_eq x hx0, List.length_reverse]
  by_contra hlen
  have h1 : (Nat.digits 10 x).length ≤ 1 := by omega
  have := Nat.lt_base_pow_length_digits (b := 10) (m := x) (by norm_num)
  have h10 : (10 : Nat) ^ (Nat.digits 10 x).length ≤ 10 ^ 1 :=
    Nat.pow_le_pow_right (by norm_num) h1
  simp at h10
  omega

theorem strNat_length_pos (x : Nat) : 1 ≤ (strNat x).length := by
  by_cases h : x ≤ 9
  · rw [strNat_length_of_le_nine h]
  · have := strNat_length_ge_two (x := x) (by omega)
    omega

theorem digitsChars_cons (x : Nat) (v : List Nat) :
    digitsChars (x :: v) = strNat x ++ digitsChars v := rfl

theorem digitsChars_length (v : List Nat) :
    (digitsChars v).length = (v.map fun x => (strNat x).length).sum := by
  induction v with
  | nil => rfl
  | cons x xs ih =>
    rw [digitsChars_cons, List.length_append, ih, List.map_cons, List.sum_cons]

theorem digitsChars_length_of_le_nine (v : List Nat) (h : ∀ x ∈ v, x ≤ 9) :
    (digitsChars v).length = v.length := by
  induction v with
  | nil => rfl
  | cons x xs ih =>
    rw [digitsChars_cons, List.length_append, List.length_cons,
      strNat_length_of_le_nine (h x (List.mem_cons_self x xs)),
      ih fun y hy => h y (List.mem_cons_of_mem x hy)]
    omega

/-! ## Helper lemmas: byte lists -/

theorem toBytesLEAux_length : ∀ (w m : Nat), (toBytesLEAux w m).length = w := by
  intro w
  induction w with
  | zero => intro m; rfl
  | succ w ih => intro m; rw [toBytesLEAux, List.length_cons, ih]

theorem toBytesBE_length : ∀ (w m : Nat), (toBytesBE w m).length = w := by
  intro w
  induction w with
  | zero => intro m; rfl
  | succ w ih =>
    intro m
    rw [toBytesBE, List.length_append, ih]
    rfl

theorem fromBytesBE_append_singleton (bs : List Nat) (x : Nat) :
    fromBytesBE (bs ++ [x]) = 256 * fromBytesBE bs + x := by
  rw [fromBytesBE, fromBytesBE, List.foldl_append]
  rfl

theorem fromBytesBE_toBytesBE : ∀ (w m : Nat), m < 256 ^ w →
    fromBytesBE (toBytesBE w m) = m := by
  intro w
  induction w with
  | zero =>
    intro m hm
    interval_cases m
    rfl
  | succ w ih =>
    intro m hm
    rw [toBytesBE, fromBytesBE_append_singleton, ih (m / 256) (by
      rw [Nat.div_lt_iff_lt_mul (by norm_num)]
      calc m < 256 ^ (w + 1) := hm
      _ = 256 ^ w * 256 := by ring)]
    omega

/-! ## Helper lemmas: `int(str(i), 16)` and digit counts -/

theorem foldr_eq_ofDigits (L : List Nat) :
    L.foldr (fun x y => 16 * y + x) 0 = Nat.ofDigits 16 L := by
  induction L with
  | nil => rfl
  | cons d tl ih =>
    rw [List.foldr_cons, ih, Nat.ofDigits_cons]
    ring

theorem hexread_eq_ofDigits (n : Nat) :
    hexread n = Nat.ofDigits 16 (Nat.digits 10 n) := by
  by_cases h0 : n = 0
  · subst h0
    simp [hexread, decStrDigits]
  · rw [hexread, decStrDigits_eq n h0, List.foldl_reverse, foldr_eq_ofDigits]

theorem pow_256_eq (s : Nat) : (256 : Nat) ^ s = 16 ^ (2 * s) := by
  rw [pow_mul]
  norm_num

theorem hexread_lt_iff (v s : Nat) :
    hexread v < 256 ^ s ↔ (Nat.digits 10 v).length ≤ 2 * s := by
  rw [pow_256_eq]
  by_cases h0 : v = 0
  · subst h0
    simp [hexread, decStrDigits]
  · have hL16 : ∀ l ∈ Nat.digits 10 v, l < 16 := fun l hl =>
      lt_trans (Nat.digits_lt_base (by norm_num) hl) (by norm_num)
    have hlast : ∀ h : Nat.digits 10 v ≠ [], (Nat.digits 10 v).getLast h ≠ 0 :=
      fun _ => Nat.getLast_digit_ne_zero 10 h0
    have hdig : Nat.digits 16 (hexread v) = Nat.digits 10 v := by
      rw [hexread_eq_ofDigits]
      exact Nat.digits_ofDigits 16 (by norm_num) _ hL16 hlast
    constructor
    · intro hlt
      by_contra hlen
      have hne : hexread v ≠ 0 := by
        intro hz
        have : Nat.digits 10 v ≠ [] := Nat.digits_ne_nil_iff_ne_zero.mpr h0
        rw [← hdig, hz] at this
        simp at this
      have hle := Nat.base_pow_length_digits_le 16 (hexread v) (by norm_num) hne
      rw [hdig] at hle
      have h1 : 2 * s + 1 ≤ (Nat.digits 10 v).length := by omega
      have h2 : (16 : Nat) ^ (2 * s + 1) ≤ 16 ^ (Nat.digits 10 v).length :=
        Nat.pow_le_pow_right (by norm_num) h1
      rw [pow_succ] at h2
      have h3 : 16 ^ (2 * s) * 16 ≤ 16 * hexread v := le_trans h2 hle
      have h4 : 16 ^ (2 * s) ≤ hexread v := by omega
      omega
    · intro hlen
      have := Nat.ofDigits_lt_base_pow_length (b := 16)
        (l := Nat.digits 10 v) (by norm_num) hL16
      rw [← hexread_eq_ofDigits] at this
      calc hexread v < 16 ^ (Nat.digits 10 v).length := this
      _ ≤ 16 ^ (2 * s) := Nat.pow_le_pow_right (by norm_num) hlen

/-! ## Helper lemmas: running the generator on in-range counters -/

theorem to_bytes_le_eq (n : Int) (h1 : 0 ≤ n) (h2 : n < 2 ^ 24) :
    to_bytes_le 3 n = some (toBytesLEAux 3 n.toNat) := by
  rw [to_bytes_le, if_pos]
  refine ⟨h1, ?_⟩
  norm_num at h2 ⊢
  omega

theorem SE_validation_number_eq_total (g : SASGame) (h1 : 0 ≤ g.v_seq)
    (h2 : g.v_seq < 2 ^ 24) (h3 : 0 ≤ g.v_id) (h4 : g.v_id < 2 ^ 24) :
    g.SE_validation_number = some (SE_total g.v_seq.toNat g.v_id.toNat) := by
  rw [SASGame.SE_validation_number, to_bytes_le_eq _ h1 h2, to_bytes_le_eq _ h3 h4]
  simp only [Option.bind_eq_bind, Option.some_bind,
    crc_eq_of_seed_lt _ 0 (by norm_num)]
  rfl

/-! ## Modelled from the spec: the §4.5 validation-number pipeline

Written from the nine numbered steps of §4.5 (as restated in claim C1),
for comparison with the source's `SE_validation_number`.  Per §9, an
element of the digit sequence is rendered by direct string conversion of
the integer, which is `strNat`. -/

/-- Modelled from the spec (§4.5 step 1): a counter encoded as 3 bytes,
least significant first. -/
def specBytes3 (n : Nat) : List Nat :=
  [n % 256, n / 256 % 256, n / 65536 % 256]

/-- Modelled from the spec (§4.5 steps 1-9): the full validation-number
pipeline. -/
def SE_spec (seq id : Nat) : String :=
  let a := specBytes3 seq ++ specBytes3 id
  let b := [a[0]!, a[1]!, a[2]! ^^^ a[0]!, a[3]! ^^^ a[1]!,
    a[4]! ^^^ a[0]!, a[5]! ^^^ a[1]!]
  let cs := checksumSpec (b.take 2) 0 ++ checksumSpec ((b.drop 2).take 2) 0 ++
    checksumSpec (b.drop 4) 0
  let n0 := cs[3]! + cs[4]! * 256 + cs[5]! * 65536
  let n1 := cs[0]! + cs[1]! * 256 + cs[2]! * 65536
  let v := fmt8 n0 ++ fmt8 n1
  let vr := v.reverse
  let v1 := vr.set 7 (vr[7]! ||| ((vr.take 8).sum % 5) <<< 1)
  let v2 := v1.set 15 (v1[15]! ||| ((v1.drop 8).sum % 5) <<< 1)
  "00" ++ String.mk (digitsChars v2.reverse)

theorem checksumAccumSpec_eq_crcAccum (bs : List Nat) (s : Nat) :
    checksumAccumSpec bs s = crcAccum bs s := rfl

theorem toBytesLEAux3_eq_specBytes3 (n : Nat) : toBytesLEAux 3 n = specBytes3 n := by
  simp [toBytesLEAux, specBytes3, Nat.div_div_eq_div_mul]

theorem toBytesLEAux2_eq_checksumSpec (bs : List Nat) :
    toBytesLEAux 2 (crcAccum bs 0) = checksumSpec bs 0 := by
  simp [toBytesLEAux, checksumSpec, checksumAccumSpec_eq_crcAccum]

theorem SE_total_eq_spec (seq id : Nat) : SE_total seq id = SE_spec seq id := by
  unfold SE_total SE_digits SE_pre SE_n0 SE_n1 SE_c SE_spec SE_inject
  simp only [toBytesLEAux3_eq_specBytes3, toBytesLEAux2_eq_checksumSpec]
  simp only [checksumSpec, scramble, List.cons_append, List.nil_append,
    List.getElem!_cons_zero, List.getElem!_cons_succ, List.take_succ_cons,
    List.take_zero, List.drop_succ_cons, List.drop_zero, leCombine]
  ring_nf

/-! ## Claim theorems -/

/-- C1: for every registry whose `validation_sequence` and
`validation_id` lie in `[0, 2^24)`, `SE_validation_number` returns
exactly the string produced by the spec's nine-step pipeline
(`SE_spec`): 3-byte little-endian encodings, the fixed XOR scramble, the
three seed-0 checksums, little-endian recombination of `c[3..5]` and
`c[0..2]`, 8-digit zero-padded rendering, reversal, the two check-digit
ORs at positions 7 and 15, reversal again, and the `"00"` prefix. -/
theorem spec_claim_C1 (g : SASGame) (h1 : 0 ≤ g.v_seq) (h2 : g.v_seq < 2 ^ 24)
    (h3 : 0 ≤ g.v_id) (h4 : g.v_id < 2 ^ 24) :
    g.SE_validation_number = some (SE_spec g.v_seq.toNat g.v_id.toNat) := by
  rw [SE_validation_number_eq_total g h1 h2 h3 h4, SE_total_eq_spec]

theorem spec_claim_C1_witness :
    SASGame.SE_validation_number ⟨1, 1, []⟩ = some (SE_spec 1 1) ∧
    SE_spec 1 1 = "000169370485315032" :=
  ⟨spec_claim_C1 ⟨1, 1, []⟩ (by decide) (by decide) (by decide) (by decide),
    by decide⟩

/-- C3: for every byte sequence and every 16-bit seed, `crc` returns the
spec's §4.2 reference accumulator result (`checksumSpec`): nibble steps
`q = (seed XOR slice) & 0xF`, `seed = (seed >> 4) XOR (q * 0x1081)`, low
nibble first then `x >> 4`, carried across all bytes, final seed as two
bytes least significant first; in particular `crc [0, 0] 0` is
`bytes [0, 0]`. -/
theorem spec_claim_C3 :
    (∀ (bs : List Nat) (seed : Nat), (∀ x ∈ bs, x < 256) → seed < 2 ^ 16 →
      crc bs seed = some (checksumSpec bs seed)) ∧
    crc [0, 0] 0 = some [0, 0] := by
  constructor
  · intro bs seed _ hseed
    norm_num at hseed
    rw [crc_eq_of_seed_lt bs seed hseed]
    simp [toBytesLEAux, checksumSpec, checksumAccumSpec_eq_crcAccum]
  · decide

theorem spec_claim_C3_witness :
    crc [1, 2] 3 = some (checksumSpec [1, 2] 3) ∧ crc [0, 0] 0 = some [0, 0] :=
  ⟨spec_claim_C3.1 [1, 2] 3 (by decide) (by decide), spec_claim_C3.2⟩

/-- C9: the checksum accumulator stays strictly below `2^16` after every
nibble step (each step maps a sub-`2^16` seed to a sub-`2^16` seed), so
for any byte list and 16-bit seed the final
`seed.to_bytes(2, 'little')` never fails and `crc` always returns
exactly 2 bytes. -/
theorem spec_claim_C9 :
    (∀ (seed x : Nat), seed < 2 ^ 16 → crcNibble seed x < 2 ^ 16) ∧
    (∀ (bs : List Nat) (seed : Nat), (∀ x ∈ bs, x < 256) → seed < 2 ^ 16 →
      crcAccum bs seed < 2 ^ 16 ∧
        ∃ out, crc bs seed = some out ∧ out.length = 2) := by
  have h16 : (2 : Nat) ^ 16 = 65536 := by norm_num
  constructor
  · intro seed x h
    rw [h16] at h ⊢
    exact crcNibble_lt seed x h
  · intro bs seed _ h
    rw [h16] at h ⊢
    exact ⟨crcAccum_lt bs seed h, toBytesLEAux 2 (crcAccum bs seed),
      crc_eq_of_seed_lt bs seed h, toBytesLEAux_length 2 _⟩

theorem spec_claim_C9_witness :
    crcNibble 5 7 < 2 ^ 16 ∧
      (crcAccum [250, 94] 1000 < 2 ^ 16 ∧
        ∃ out, crc [250, 94] 1000 = some out ∧ out.length = 2) :=
  ⟨spec_claim_C9.1 5 7 (by decide),
    spec_claim_C9.2 [250, 94] 1000 (by decide) (by decide)⟩

theorem applyOp_value_mono (m : SASMeter) (op : MeterOp) (h : op ≠ MeterOp.clear) :
    m.value ≤ (applyOp m op).value := by
  cases op with
  | inc n =>
    simp only [applyOp, SASMeter.iadd, SASMeter.setValue]
    split_ifs <;> omega
  | assign n =>
    simp only [applyOp, SASMeter.setValue]
    split_ifs <;> omega
  | clear => exact absurd rfl h

/-- C4: a meter's value never decreases except through `clear`: over any
operation sequence without `clear` the value is monotone; a `set` with a
value not strictly above the current one and an increment with a
non-positive delta leave the value unchanged (and, being total
functions, raise nothing); an increment with a strictly positive delta
adds it; and `clear` always yields value 0. -/
theorem spec_claim_C4 :
    (∀ (m : SASMeter) (ops : List MeterOp), MeterOp.clear ∉ ops →
      m.value ≤ (applyOps m ops).value) ∧
    (∀ (m : SASMeter) (n : Int), n ≤ m.value → (m.setValue n).value = m.value) ∧
    (∀ (m : SASMeter) (n : Int), n ≤ 0 → (m.iadd n).value = m.value) ∧
    (∀ (m : SASMeter) (n : Int), 0 < n → (m.iadd n).value = m.value + n) ∧
    (∀ m : SASMeter, m.clear.value = 0) := by
  refine ⟨?_, ?_, ?_, ?_, ?_⟩
  · intro m ops
    induction ops generalizing m with
    | nil => intro _; exact le_rfl
    | cons op ops ih =>
      intro h
      rw [List.mem_cons, not_or] at h
      calc m.value ≤ (applyOp m op).value :=
            applyOp_value_mono m op fun he => h.1 he.symm
      _ ≤ (applyOps (applyOp m op) ops).value := ih _ h.2
  · intro m n h
    simp only [SASMeter.setValue]
    split_ifs <;> omega
  · intro m n h
    simp only [SASMeter.iadd, SASMeter.setValue]
    split_ifs <;> omega
  · intro m n h
    simp only [SASMeter.iadd, SASMeter.setValue]
    split_ifs <;> omega
  · intro m
    rfl

theorem spec_claim_C4_witness :
    (SASMeter.mk 0 4 7 "" "").value ≤
      (applyOps ⟨0, 4, 7, "", ""⟩ [MeterOp.inc 5, MeterOp.assign 3]).value ∧
    (SASMeter.setValue ⟨0, 4, 7, "", ""⟩ 3).value = 7 ∧
    (SASMeter.iadd ⟨0, 4, 7, "", ""⟩ (-2)).value = 7 ∧
    (SASMeter.iadd ⟨0, 4, 7, "", ""⟩ 5).value = 7 + 5 ∧
    (SASMeter.clear ⟨0, 4, 7, "", ""⟩).value = 0 :=
  ⟨spec_claim_C4.1 ⟨0, 4, 7, "", ""⟩ [MeterOp.inc 5, MeterOp.assign 3] (by decide),
    spec_claim_C4.2.1 ⟨0, 4, 7, "", ""⟩ 3 (by decide),
    spec_claim_C4.2.2.1 ⟨0, 4, 7, "", ""⟩ (-2) (by decide),
    spec_claim_C4.2.2.2.1 ⟨0, 4, 7, "", ""⟩ 5 (by decide),
    spec_claim_C4.2.2.2.2 ⟨0, 4, 7, "", ""⟩⟩

/-- C5: for non-negative `d1 ≤ d2`, a meter starting at value 0 ends at
`d2` after `set(d1); set(d2)` and also after `set(d2); set(d1)`: the two
call orders agree. -/
theorem spec_claim_C5 (m : SASMeter) (d1 d2 : Int) (h0 : m.value = 0)
    (h1 : 0 ≤ d1) (h2 : d1 ≤ d2) :
    ((m.setValue d1).setValue d2).value = d2 ∧
      ((m.setValue d2).setValue d1).value = d2 := by
  simp only [SASMeter.setValue]
  split_ifs <;> omega

theorem spec_claim_C5_witness :
    (SASMeter.setValue (SASMeter.setValue ⟨0, 4, 0, "", ""⟩ 2) 5).value = 5 ∧
      (SASMeter.setValue (SASMeter.setValue ⟨0, 4, 0, "", ""⟩ 5) 2).value = 5 :=
  spec_claim_C5 ⟨0, 4, 0, "", ""⟩ 2 5 rfl (by decide) (by decide)

/-- C6: for a meter with non-negative value, serialization
(`__bytes__`) returns the `size`-byte packed-decimal encoding (the
decimal digit string of `value` read as base 16, as `size` big-endian
bytes) exactly when the count of significant decimal digits of `value`
is at most `size * 2`, and fails (`Overflow`) when the digit count
exceeds `size * 2`; increments are a total function and never fail. -/
theorem spec_claim_C6 (m : SASMeter) (hv : 0 ≤ m.value) :
    ((Nat.digits 10 m.value.toNat).length ≤ 2 * m.size →
      ∃ bs, m.bytes = some bs ∧ bs.length = m.size ∧
        fromBytesBE bs = hexread m.value.toNat) ∧
    (2 * m.size < (Nat.digits 10 m.value.toNat).length → m.bytes = none) ∧
    (∀ n : Int, (m.iadd n).value = m.value + if 0 < n then n else 0) := by
  have hsz : ((m.size : Int)).toNat = m.size := Int.toNat_natCast m.size
  refine ⟨?_, ?_, ?_⟩
  · intro hlen
    have hfit : hexread m.value.toNat < 256 ^ m.size := (hexread_lt_iff _ _).mpr hlen
    rw [SASMeter.bytes, int_to_bcd, if_neg (by omega), if_neg (by omega)]
    rw [hsz, if_pos hfit]
    exact ⟨_, rfl, toBytesBE_length _ _, fromBytesBE_toBytesBE _ _ hfit⟩
  · intro hlen
    have hfit : ¬ hexread m.value.toNat < 256 ^ m.size := by
      rw [hexread_lt_iff]
      omega
    rw [SASMeter.bytes, int_to_bcd, if_neg (by omega), if_neg (by omega)]
    rw [hsz, if_neg hfit]
  · intro n
    simp only [SASMeter.iadd, SASMeter.setValue]
    split_ifs <;> omega

theorem spec_claim_C6_witness :
    (∃ bs, SASMeter.bytes ⟨0, 1, 0, "", ""⟩ = some bs ∧ bs.length = 1 ∧
      fromBytesBE bs = hexread (Int.toNat 0)) ∧
    SASMeter.bytes ⟨0, 1, 123, "", ""⟩ = none ∧
    (SASMeter.iadd ⟨0, 1, 123, "", ""⟩ 5).value = 123 + if (0 : Int) < 5 then 5 else 0 :=
  ⟨(spec_claim_C6 ⟨0, 1, 0, "", ""⟩ (by decide)).1 (by simp),
    (spec_claim_C6 ⟨0, 1, 123, "", ""⟩ (by decide)).2.1 (by
      rw [show ((123 : Int).toNat) = 123 from rfl,
        ← decDigitsLE_eq_digits 123 123 le_rfl]
      decide),
    (spec_claim_C6 ⟨0, 1, 123, "", ""⟩ (by decide)).2.2 5⟩

/-- C7: `int_to_bcd(i, w)` fails exactly when `i` is negative, `w` is
negative, or the decimal digit string of `i` read as base 16 does not
fit in `w` bytes; for all other inputs it returns `w` big-endian bytes
(whose big-endian value is that base-16 reading) without error. -/
theorem spec_claim_C7 (i w : Int) :
    ((i < 0 ∨ w < 0 ∨ 256 ^ w.toNat ≤ hexread i.toNat) → int_to_bcd i w = none) ∧
    (0 ≤ i → 0 ≤ w → hexread i.toNat < 256 ^ w.toNat →
      ∃ bs, int_to_bcd i w = some bs ∧ bs.length = w.toNat ∧
        fromBytesBE bs = hexread i.toNat) := by
  constructor
  · intro h
    rw [int_to_bcd]
    split_ifs with hi hw hfit
    · rfl
    · rfl
    · rcases h with h | h | h <;> omega
    · rfl
  · intro hi hw hfit
    rw [int_to_bcd, if_neg (by omega), if_neg (by omega), if_pos hfit]
    exact ⟨_, rfl, toBytesBE_length _ _, fromBytesBE_toBytesBE _ _ hfit⟩

theorem spec_claim_C7_witness :
    int_to_bcd (-1) 1 = none ∧
      ∃ bs, int_to_bcd 12 1 = some bs ∧ bs.length = (1 : Int).toNat ∧
        fromBytesBE bs = hexread (12 : Int).toNat :=
  ⟨(spec_claim_C7 (-1) 1).1 (Or.inl (by decide)),
    (spec_claim_C7 12 1).2 (by decide) (by decide) (by decide)⟩

/-- C8, counterexample to the claim as stated: the source's
`bcd_to_int` renders each byte with `format(i, 'x')`, which is
minimal-width and NOT the "exactly-two-character" rendering the claim
describes; the two readings disagree on `bytes([0x12, 0x05])`
(`'125'` read in base 16 is 293, `'1205'` is 4613). -/
theorem spec_claim_C8_counterexample :
    bcd_to_int [18, 5] = some 293 ∧ bcd_to_int_twoChar [18, 5] = some 4613 ∧
      bcd_to_int [18, 5] ≠ bcd_to_int_twoChar [18, 5] := by
  decide

/-- C8, amended: `encode(12, 1) = bytes([0x12])`,
`decode(bytes([0x12])) = 18 ≠ 12`, so `decode` is not a left inverse of
`encode` at this input; each direction's arithmetic is as independently
defined, with `decode` rendering each byte as its minimal-width
lowercase hexadecimal string (`'12'` for 0x12, `'5'` for 0x05), not
zero-padded to two characters. -/
theorem spec_claim_C8 :
    int_to_bcd 12 1 = some [18] ∧ bcd_to_int [18] = some 18 ∧
      (int_to_bcd 12 1).bind bcd_to_int = some 18 ∧ (18 : Nat) ≠ 12 ∧
      hexStrDigits 18 = [1, 2] ∧ hexStrDigits 5 = [5] := by
  decide

theorem to_bytes_le3_eq_none (n : Int) (h : n < 0 ∨ 2 ^ 24 ≤ n) :
    to_bytes_le 3 n = none := by
  rw [to_bytes_le, if_neg]
  rintro ⟨ha, hb⟩
  norm_num at hb h
  omega

/-- C10: whenever a counter is negative or at least `2^24`, the
generator fails at the initial 3-byte little-endian encoding step (one
of the two `to_bytes` calls raises) and produces no output; the method
reads but never writes the registry, so the state is unchanged (in this
embedding `SE_validation_number` is a pure function of the state). -/
theorem spec_claim_C10 (g : SASGame)
    (h : g.v_seq < 0 ∨ 2 ^ 24 ≤ g.v_seq ∨ g.v_id < 0 ∨ 2 ^ 24 ≤ g.v_id) :
    g.SE_validation_number = none ∧
      (to_bytes_le 3 g.v_seq = none ∨ to_bytes_le 3 g.v_id = none) := by
  by_cases hs : g.v_seq < 0 ∨ 2 ^ 24 ≤ g.v_seq
  · have hn := to_bytes_le3_eq_none _ hs
    refine ⟨?_, Or.inl hn⟩
    rw [SASGame.SE_validation_number, hn]
    rfl
  · push_neg at hs
    have hid : g.v_id < 0 ∨ 2 ^ 24 ≤ g.v_id := by
      rcases h with h | h | h | h
      · exact absurd h (by omega)
      · exact absurd h (by omega)
      · exact Or.inl h
      · exact Or.inr h
    have hn := to_bytes_le3_eq_none _ hid
    refine ⟨?_, Or.inr hn⟩
    rw [SASGame.SE_validation_number, to_bytes_le_eq _ hs.1 hs.2, hn]
    rfl

theorem spec_claim_C10_witness :
    SASGame.SE_validation_number ⟨0, -1, []⟩ = none ∧
      (to_bytes_le 3 (-1) = none ∨ to_bytes_le 3 0 = none) :=
  spec_claim_C10 ⟨0, -1, []⟩ (Or.inl (by decide))

/-! ## Helper lemmas for the output-length claim -/

theorem or_shift_le_nine {a t : Nat} (ha : a ≤ 1) (ht : t ≤ 4) :
    a ||| t <<< 1 ≤ 9 := by
  interval_cases a <;> interval_cases t <;> decide

theorem sum_map_ge_length (v : List Nat) :
    v.length ≤ (v.map fun x => (strNat x).length).sum := by
  induction v with
  | nil => exact le_rfl
  | cons y ys ih =>
    rw [List.map_cons, List.sum_cons, List.length_cons]
    have := strNat_length_pos y
    omega

theorem sum_map_lt_of_big (v : List Nat) (i : Nat) (hi : i < v.length)
    (hbig : 10 ≤ v[i]!) :
    v.length + 1 ≤ (v.map fun x => (strNat x).length).sum := by
  induction v generalizing i with
  | nil => simp at hi
  | cons y ys ih =>
    rw [List.map_cons, List.sum_cons, List.length_cons]
    match i with
    | 0 =>
      rw [List.getElem!_cons_zero] at hbig
      have h2 := strNat_length_ge_two hbig
      have h3 := sum_map_ge_length ys
      omega
    | j + 1 =>
      rw [List.getElem!_cons_succ] at hbig
      have h1 := strNat_length_pos y
      have h4 := ih j (by simpa using hi) hbig
      omega

theorem SE_n0_lt (seq id : Nat) : SE_n0 seq id < 16777216 := by
  unfold SE_n0 SE_c
  simp only [toBytesLEAux, List.cons_append, List.nil_append,
    List.drop_succ_cons, List.drop_zero, leCombine]
  omega

theorem SE_n1_lt (seq id : Nat) : SE_n1 seq id < 16777216 := by
  unfold SE_n1 SE_c
  simp only [toBytesLEAux, List.cons_append, List.nil_append,
    List.take_succ_cons, List.take_zero, leCombine]
  omega

theorem SE_pre_eq (seq id : Nat) :
    SE_pre seq id = winDigits 8 (SE_n1 seq id) ++ winDigits 8 (SE_n0 seq id) := by
  rw [SE_pre, List.reverse_append,
    fmt8_reverse _ (by have := SE_n1_lt seq id; norm_num; omega),
    fmt8_reverse _ (by have := SE_n0_lt seq id; norm_num; omega)]

theorem SE_inject_pre_bounds (seq id : Nat) :
    (SE_inject (SE_pre seq id)).length = 16 ∧
    (∀ x ∈ SE_inject (SE_pre seq id), x ≤ 9) ∧
    (SE_inject (SE_pre seq id))[7]! ≤ 9 ∧
    (SE_inject (SE_pre seq id))[15]! ≤ 9 := by
  have hn0 := SE_n0_lt seq id
  have hn1 := SE_n1_lt seq id
  rw [SE_pre_eq]
  simp only [winDigits, List.cons_append, List.nil_append]
  simp only [SE_inject, List.getElem!_cons_succ, List.getElem!_cons_zero,
    List.take_succ_cons, List.take_zero, List.sum_cons, List.sum_nil,
    List.set_cons_zero, List.set_cons_succ, List.drop_succ_cons,
    List.drop_zero, List.length_cons, List.length_nil]
  refine ⟨by trivial, ?_, ?_, ?_⟩
  · intro x hx
    simp only [List.mem_cons, List.not_mem_nil, or_false] at hx
    rcases hx with rfl | rfl | rfl | rfl | rfl | rfl | rfl | rfl | rfl | rfl |
      rfl | rfl | rfl | rfl | rfl | rfl <;>
      first
        | omega
        | exact or_shift_le_nine (by omega) (by omega)
  · exact or_shift_le_nine (by omega) (by omega)
  · exact or_shift_le_nine (by omega) (by omega)

/-- C2: for in-range counters the no-overflow condition of the claim in
fact always holds — after the check-digit ORs, positions 7 and 15 of the
(reversed) digit list still hold single decimal digits, because each
holds the leading digit of an 8-digit zero-padded rendering of a 24-bit
value (hence 0 or 1) ORed with an even value at most 8 — so the output
always starts with `"00"` and is exactly 18 characters.  The claim's
overflow clause is therefore vacuous for reachable digit lists; the
third conjunct states it non-vacuously at the renderer level: whenever a
16-element digit list does carry a value above 9 at position 7 or 15,
the direct integer-to-string rendering emits a multi-character token and
the output exceeds 18 characters. -/
theorem spec_claim_C2 (g : SASGame) (h1 : 0 ≤ g.v_seq) (h2 : g.v_seq < 2 ^ 24)
    (h3 : 0 ≤ g.v_id) (h4 : g.v_id < 2 ^ 24) :
    ((SE_inject (SE_pre g.v_seq.toNat g.v_id.toNat))[7]! ≤ 9 ∧
      (SE_inject (SE_pre g.v_seq.toNat g.v_id.toNat))[15]! ≤ 9) ∧
    (∃ rest, g.SE_validation_number = some ("00" ++ rest) ∧
      ("00" ++ rest).length = 18) ∧
    (∀ v : List Nat, v.length = 16 → (∀ x ∈ v, x < 16) →
      9 < v[7]! ∨ 9 < v[15]! →
      18 < ("00" ++ String.mk (digitsChars v)).length) := by
  obtain ⟨hlen16, hmem, h7, h15⟩ :=
    SE_inject_pre_bounds g.v_seq.toNat g.v_id.toNat
  refine ⟨⟨h7, h15⟩, ?_, ?_⟩
  · refine ⟨String.mk (digitsChars (SE_digits g.v_seq.toNat g.v_id.toNat)),
      ?_, ?_⟩
    · rw [SE_validation_number_eq_total g h1 h2 h3 h4]
      rfl
    · simp only [String.length_append, String.length_mk]
      rw [SE_digits, digitsChars_length_of_le_nine _
          (fun x hx => hmem x (List.mem_reverse.mp hx)),
        List.length_reverse, hlen16]
      rfl
  · intro v hvlen _ hbig
    simp only [String.length_append, String.length_mk]
    rw [digitsChars_length]
    have h00 : ("00" : String).length = 2 := rfl
    have h00d : ("00" : String).data.length = 2 := rfl
    rcases hbig with hb | hb
    · have := sum_map_lt_of_big v 7 (by omega) (by omega)
      omega
    · have := sum_map_lt_of_big v 15 (by omega) (by omega)
      omega

theorem spec_claim_C2_witness :
    ((SE_inject (SE_pre 1 1))[7]! ≤ 9 ∧ (SE_inject (SE_pre 1 1))[15]! ≤ 9) ∧
    (∃ rest, SASGame.SE_validation_number ⟨1, 1, []⟩ = some ("00" ++ rest) ∧
      ("00" ++ rest).length = 18) ∧
    18 < ("00" ++ String.mk
      (digitsChars [0, 0, 0, 0, 0, 0, 0, 13, 0, 0, 0, 0, 0, 0, 0, 0])).length := by
  have h := spec_claim_C2 ⟨1, 1, []⟩ (by decide) (by decide) (by decide) (by decide)
  exact ⟨h.1, h.2.1, h.2.2 _ (by decide) (by decide) (by decide)⟩
